import Mathlib

/-!
# LocalFlow core: shallow embedding and verification

A shallow embedding of the `localflow` dictation front end
(`src/localflow/app.py`, `audio.py`, `commands.py`, `config.py`,
`enhance.py`, `history.py`) together with proofs about its
hotkey-driven recording state machine, its background worker and its
text post-processing.  Machine floats (clip durations, timestamps) are
modelled as rationals; Python exceptions are modelled with `Except`;
external collaborators (whisper, llama, clipboard) are modelled as
oracle functions supplied as parameters.
-/

namespace LocalFlow

/-- Python exception classes that can cross the collaborator boundary. -/
inductive PyErr where
  | typeError
  | runtimeError
  | keyError
  | osError
  deriving DecidableEq, Repr

/-! ## `commands.py`: `apply_voice_commands`

The source applies `re.sub(rf"\b{spoken}\b", token, cleaned, flags=IGNORECASE)`
for the two literal phrases, then collapses `[ \t]*\n[ \t]*` to `"\n"`, then
strips.  We embed the exact regex behaviour needed: left-to-right
non-overlapping replacement of a literal pattern, matched case-insensitively,
guarded by `\b` word boundaries on both sides evaluated against the original
text (the patterns begin and end with word characters).  Word characters are
the ASCII `\w` class; the scenario inputs are ASCII. -/

/-- ASCII `\w`: letters, digits, underscore. -/
def isWordChar (c : Char) : Bool :=
  c.isAlphanum || c = '_'

/-- Whether an optional neighbouring character is a word character
(`none` stands for the edge of the string, which is a non-word position). -/
def wordAt : Option Char → Bool
  | none => false
  | some c => isWordChar c

/-- Case-insensitive literal match of `pat` against a prefix of the input.
On success returns the consumed input characters and the remaining input. -/
def matchCI : List Char → List Char → Option (List Char × List Char)
  | [], rest => some ([], rest)
  | _ :: _, [] => none
  | p :: ps, c :: cs =>
    if p.toLower = c.toLower then
      match matchCI ps cs with
      | some (cons, rest) => some (c :: cons, rest)
      | none => none
    else none

/-- One left-to-right scan of `re.sub(rf"\b{pat}\b", repl, s, flags=IGNORECASE)`
for a literal pattern `pat` that starts and ends with a word character.
`prev` is the character of the original text just before the current
position; `fuel` bounds the recursion (the input length suffices since every
step consumes at least one character). -/
def subWordCIAux (pat repl : List Char) : Nat → Option Char → List Char → List Char
  | 0, _, s => s
  | _ + 1, _, [] => []
  | fuel + 1, prev, c :: cs =>
    match matchCI pat (c :: cs) with
    | some (cons, rest) =>
      if wordAt prev ≠ wordAt (some c) ∧ wordAt cons.getLast? ≠ wordAt rest.head? then
        repl ++ subWordCIAux pat repl fuel cons.getLast? rest
      else
        c :: subWordCIAux pat repl fuel (some c) cs
    | none => c :: subWordCIAux pat repl fuel (some c) cs

/-- Model of `re.sub(rf"\b{pat}\b", repl, s, flags=re.IGNORECASE)` for a literal
word-delimited pattern. -/
def subWordCI (pat repl : String) (s : String) : String :=
  String.mk (subWordCIAux pat.toList repl.toList (s.toList.length + 1) none s.toList)

/-- The `[ \t]` character class. -/
def isSpaceTab (c : Char) : Bool :=
  c = ' ' || c = '\t'

/-- Model of `re.sub(r"[ \t]*\n[ \t]*", "\n", s)`: at each position try to match a
(possibly empty) run of spaces/tabs, a newline, then a trailing run; on a
match emit a single newline and continue after it, otherwise advance one
character. -/
def collapseWsAux : Nat → List Char → List Char
  | 0, s => s
  | _ + 1, [] => []
  | fuel + 1, c :: cs =>
    match (c :: cs).dropWhile isSpaceTab with
    | '\n' :: rest => '\n' :: collapseWsAux fuel (rest.dropWhile isSpaceTab)
    | _ => c :: collapseWsAux fuel cs

/-- Characters removed by Python `str.strip()` with no argument. -/
def isPySpace (c : Char) : Bool :=
  c = ' ' || c = '\t' || c = '\n' || c = '\r' || c = Char.ofNat 11 || c = Char.ofNat 12

/-- Python `str.strip()` on a character list. -/
def pyStripList (s : List Char) : List Char :=
  ((s.dropWhile isPySpace).reverse.dropWhile isPySpace).reverse

/-- Python `str.strip()`. -/
def pyStrip (s : String) : String :=
  String.mk (pyStripList s.toList)

/-- Model of `commands.apply_voice_commands` (`src/localflow/commands.py`): strip; if
empty return `""`; replace whole-word case-insensitive `"new paragraph"` by
`"\n\n"` and then `"new line"` by `"\n"`; collapse horizontal whitespace
around newlines; strip again. -/
def apply_voice_commands (text : String) : String :=
  let cleaned := pyStrip text
  if cleaned = "" then ""
  else
    let step1 := subWordCI "new paragraph" "\n\n" cleaned
    let step2 := subWordCI "new line" "\n" step1
    let collapsed := String.mk (collapseWsAux (step2.toList.length + 1) step2.toList)
    pyStrip collapsed

/-! ## `config.py`: hotkey normalization and toggle-mode derivation -/

/-- Model of `config._normalize_hotkey` (`src/localflow/config.py` lines 191-225):
strip, rewrite legacy spellings of `space`, then send every known spelling of
right-command, command+shift / right-command+space, and
right-command+right-shift combinations to their canonical forms. -/
def normalize_hotkey (hotkey : String) : String :=
  let n0 := pyStrip hotkey
  let n1 := n0.replace "+space" "+<space>"
  let n2 := n1.replace "+ Space" "+<space>"
  let normalized := n2.replace "+SPACE" "+<space>"
  if normalized ∈ ["cmd_r", "right_cmd", "right command", "right-command"] then
    "<cmd_r>"
  else if normalized ∈
      ["cmd+shift", "cmd + shift", "command+shift", "command + shift",
       "<cmd>+shift", "<cmd>+<shift>", "cmd+<shift>",
       "cmd_r+space", "cmd_r+<space>", "cmd_r + space",
       "right command + space", "right-command+space",
       "<cmd_r>+space", "<cmd_r>+<space>"] then
    "<cmd>+<shift>"
  else if normalized ∈
      ["cmd_r+shift_r", "right command + right shift",
       "right-command+right-shift", "<cmd_r>+<shift_r>",
       "<cmd_r>+<shift>", "<cmd_r>+shift_r"] then
    "<cmd_r>"
  else normalized

/-- The hotkey field produced by `config.load_config`:
`_normalize_hotkey(str(data.get("hotkey", "<cmd_r>")))` (line 118), with the
raw TOML value abstracted as an optional string. -/
def load_config_hotkey (raw : Option String) : String :=
  normalize_hotkey (raw.getD "<cmd_r>")

/-- Model of `app.py` line 37: `self._toggle_mode = config.hotkey == "<cmd_r>+<space>"`. -/
def toggle_mode_of (hotkey : String) : Bool :=
  hotkey == "<cmd_r>+<space>"

/-! ## `audio.py`: `AudioRecorder`

Timestamps and durations are rationals (`time.monotonic()` values); captured
buffers are lists of rational samples.  `recording` is `_stream is not None`,
modelled as the `streamOpen` flag. -/

/-- State of `audio.AudioRecorder`: whether the capture stream is open
(`_stream is not None`), the `_started_at` timestamp and the accumulated
`_frames` buffers. -/
structure AudioRecorder where
  streamOpen : Bool
  startedAt : Option ℚ
  frames : List (List ℚ)
  deriving DecidableEq, Repr

/-- Model of `AudioRecorder.recording` property. -/
def AudioRecorder.recording (r : AudioRecorder) : Bool :=
  r.streamOpen

/-- Model of `AudioRecorder._callback`: append a captured buffer. -/
def AudioRecorder.callback (buf : List ℚ) (r : AudioRecorder) : AudioRecorder :=
  { r with frames := r.frames ++ [buf] }

/-- Model of `AudioRecorder.start` at monotonic time `now`: no-op when already open,
otherwise clear frames, stamp `_started_at` and open the stream. -/
def AudioRecorder.start (now : ℚ) (r : AudioRecorder) : AudioRecorder :=
  if r.streamOpen then r
  else { streamOpen := true, startedAt := some now, frames := [] }

/-- Model of `AudioRecorder.stop` at monotonic time `now` (`audio.py` lines 45-64):
clears the stream handle and `_started_at`; when the stream was not open, or
no frames were captured, returns empty samples with duration `0.0`; otherwise
returns the concatenated samples and `max(0.0, now - started_at)` (zero when
`_started_at` was somehow unset). -/
def AudioRecorder.stop (now : ℚ) (r : AudioRecorder) : (List ℚ × ℚ) × AudioRecorder :=
  let cleared : AudioRecorder := { r with streamOpen := false, startedAt := none }
  if r.streamOpen = false then (([], 0), cleared)
  else if r.frames = [] then (([], 0), cleared)
  else
    let audio := r.frames.flatten
    let duration : ℚ :=
      match r.startedAt with
      | none => 0
      | some t => max 0 (now - t)
    ((audio, duration), { cleared with frames := [] })

/-! ## `enhance.py`: `LocalEnhancer`

The llama model is an oracle: `createCompletion` receives the prompt and
returns `completion["choices"][0]["text"]` or raises.  All `_load` failures
(empty path, missing file, missing llama-cpp) leave `_model = None`. -/

/-- Oracle for the loaded llama model: given the prompt, return the text of
the first completion choice, or raise. -/
structure PyModel where
  createCompletion : String → Except PyErr String

/-- State of `enhance.LocalEnhancer` after construction. -/
structure LocalEnhancer where
  enabled : Bool
  model : Option PyModel
  loadError : Option String

/-- The prompt built by `LocalEnhancer.enhance` around the input text. -/
def enhancerPrompt (text : String) : String :=
  "You clean raw speech-to-text output.\n" ++
  "Rules:\n" ++
  "- Preserve meaning.\n" ++
  "- Keep wording close to the original.\n" ++
  "- Fix punctuation, capitalization, and obvious transcription mistakes.\n" ++
  "- Return only cleaned text.\n\n" ++
  "Input:\n" ++ text ++ "\n\n" ++
  "Cleaned:"

/-- Model of `LocalEnhancer.enhance` (`enhance.py` lines 49-72): return the input
unchanged when it is blank or no model is loaded; otherwise call the model
(exceptions propagate to the caller — there is no try/except in this method);
strip the generated text and fall back to the input when it is empty. -/
def LocalEnhancer.enhance (e : LocalEnhancer) (text : String) : Except PyErr String :=
  match e.model with
  | none => .ok text
  | some m =>
    if pyStrip text = "" then .ok text
    else
      match m.createCompletion (enhancerPrompt text) with
      | .error err => .error err
      | .ok raw =>
        let generated := pyStrip raw
        .ok (if generated = "" then text else generated)

/-! ## The background worker: `app.LocalFlowApp._process_audio`

The transcriber and the text-output collaborator are oracles.  History is
special: `app.py` line 127 calls `append_history(history_text,
mode=history_mode)`, but `history.append_history` (`history.py` line 18) has
signature `(text, path=None, max_entries=1000)` and accepts no `mode` keyword,
so in Python the call raises `TypeError` before the function body runs. -/

/-- The fields of `config.FlowConfig` consumed by the worker. -/
structure FlowConfig where
  language : Option String
  enableVoiceCommands : Bool
  enableEnhancer : Bool
  deriving Repr

/-- External collaborators invoked by the worker. -/
structure Collaborators where
  /-- Model of `WhisperTranscriber.transcribe(audio, language)`. -/
  transcribe : List ℚ → Option String → Except PyErr String
  /-- Model of `output.emit_text(text, auto_paste, paste_mode)`, with the two config
  flags already applied. -/
  emit : String → Except PyErr Unit

/-- The call `append_history(history_text, mode=history_mode)` at `app.py`
line 127: `history.append_history` takes `(text, path=None, max_entries=1000)`
and no `mode` keyword, so Python raises `TypeError` at argument binding —
before any record is persisted. -/
def appendHistoryCall (_historyText : String) : Except PyErr Unit :=
  .error .typeError

/-- Observable outcome of one `_process_audio` run. -/
structure WorkerResult where
  /-- Text passed to `emit_text`, when that call was reached and returned. -/
  emitted : Option String
  /-- Whether the history call at `app.py` line 127 returned normally. -/
  historyOk : Bool
  /-- The exception caught by the worker's `except` clause, if any. -/
  caughtError : Option PyErr
  /-- Whether the empty-text branch printed "No speech detected." -/
  noSpeech : Bool
  /-- The `_processing` flag after the `finally` block. -/
  processingAfter : Bool
  deriving DecidableEq, Repr

/-- Model of `LocalFlowApp._process_audio` (`app.py` lines 107-139): transcribe;
optionally rewrite voice commands; optionally enhance; when the resulting
text is non-empty, call `append_history` (which raises `TypeError`, see
`appendHistoryCall`) and then `emit_text`; report "no speech" when empty.
Every exception from a collaborator is caught by the `except` clause, and the
`finally` block always clears `_processing`. -/
def process_audio (cfg : FlowConfig) (collab : Collaborators)
    (enhancer : LocalEnhancer) (audio : List ℚ) : WorkerResult :=
  match collab.transcribe audio cfg.language with
  | .error e => ⟨none, false, some e, false, false⟩
  | .ok rawText =>
    let text0 := if cfg.enableVoiceCommands then apply_voice_commands rawText else rawText
    let preEnhancerText := text0
    match (if cfg.enableEnhancer then enhancer.enhance text0 else .ok text0) with
    | .error e => ⟨none, false, some e, false, false⟩
    | .ok text =>
      if text = "" then ⟨none, false, none, true, false⟩
      else
        let historyText := if cfg.enableEnhancer then text else preEnhancerText
        match appendHistoryCall historyText with
        | .error e => ⟨none, false, some e, false, false⟩
        | .ok _ =>
          match collab.emit text with
          | .error e => ⟨none, true, some e, false, false⟩
          | .ok _ => ⟨some text, true, none, false, false⟩

/-! ## `app.py`: the recording state machine

Key identities are an abstract type `K` with decidable equality; the
`pynput`-backed `_normalize_listener_key` is an oracle `normalize : K → K`
and the parsed hotkey combination is a `Finset K`.  The handlers are modelled
with the listener attached (the `self._listener is None` early returns are
about process start/shutdown).  Side effects observable to the user or to
collaborators (starting the capture stream, the busy advisory, discarding a
short clip, submitting a clip to the single-slot executor) are returned as an
effect list. -/

/-- Fixed per-app data derived from the configuration in
`LocalFlowApp.__init__`: the parsed hotkey set, the key normalization, and
the toggle-mode flag. -/
structure HotkeyCtx (K : Type) [DecidableEq K] where
  combo : Finset K
  normalize : K → K
  toggleMode : Bool

/-- Mutable app state guarded by `LocalFlowApp._state_lock`, together with
the recorder. -/
structure AppState (K : Type) [DecidableEq K] where
  /-- Model of `_pressed_hotkey_keys`. -/
  pressed : Finset K
  /-- Model of `_hotkey_activated`. -/
  activated : Bool
  /-- Model of `_processing`. -/
  processing : Bool
  /-- Model of `self.recorder`. -/
  recorder : AudioRecorder
  /-- Model of `_clip_started_at`. -/
  clipStartedAt : Option ℚ

/-- App state at startup: nothing pressed, latch clear, not processing,
recorder closed. -/
def initState (K : Type) [DecidableEq K] : AppState K :=
  ⟨∅, false, false, ⟨false, none, []⟩, none⟩

/-- Observable side effects of one handler invocation. -/
inductive Effect where
  /-- "[localflow] Still processing previous clip." -/
  | busyAdvisory
  /-- Model of `self.recorder.start()` plus "[localflow] Recording...". -/
  | recordingStarted
  /-- "[localflow] Clip too short." (clip discarded, nothing submitted). -/
  | tooShort
  /-- Model of `self._executor.submit(self._process_audio, audio, clip_started_at)`. -/
  | submitted (audio : List ℚ) (clipStartedAt : Option ℚ)
  deriving DecidableEq, Repr

/-- Whether an effect is a submission to the processing executor. -/
def Effect.isSubmit : Effect → Bool
  | .submitted _ _ => true
  | _ => false

/-- The derived `RecordingState` of the spec's data model. -/
inductive RecordingState where
  | idle
  | recording
  | processing
  deriving DecidableEq, Repr

variable {K : Type} [DecidableEq K]

/-- The spec-level `RecordingState` read off the implementation state:
`Processing` while `_processing` is set, else `Recording` while the capture
stream is open, else `Idle`. -/
def recordingStateOf (s : AppState K) : RecordingState :=
  if s.processing then .processing
  else if s.recorder.recording then .recording
  else .idle

/-- Model of `LocalFlowApp._finish_recording_locked` (`app.py` lines 96-105) at
monotonic time `now`: stop the recorder, clear `_clip_started_at`; when the
clip is shorter than 0.2s or has no samples, drop it; otherwise set
`_processing` and submit the clip to the worker. -/
def finishRecordingLocked (now : ℚ) (s : AppState K) : AppState K × List Effect :=
  let stopRes := s.recorder.stop now
  let audio := stopRes.1.1
  let duration := stopRes.1.2
  let clipStartedAt := s.clipStartedAt
  let s1 : AppState K := { s with recorder := stopRes.2, clipStartedAt := none }
  if duration < 1/5 ∨ audio.length = 0 then
    (s1, [.tooShort])
  else
    ({ s1 with processing := true }, [.submitted audio clipStartedAt])

/-- Model of `LocalFlowApp._on_press` (`app.py` lines 44-70) at monotonic time `now`:
ignore keys outside the combo; add the normalized key to the pressed set; on
the edge where the pressed set reaches the full combo with the latch clear,
set the latch and either advise busy (while processing), toggle the recorder
(toggle mode) or start it (hold mode). -/
def onPress (ctx : HotkeyCtx K) (now : ℚ) (k : K) (s : AppState K) :
    AppState K × List Effect :=
  let n := ctx.normalize k
  if n ∉ ctx.combo then (s, [])
  else
    let s1 : AppState K := { s with pressed := insert n s.pressed }
    if s1.pressed = ctx.combo then
      if s1.activated then (s1, [])
      else
        let s2 : AppState K := { s1 with activated := true }
        if s2.processing then (s2, [.busyAdvisory])
        else if ctx.toggleMode then
          if s2.recorder.recording then finishRecordingLocked now s2
          else
            ({ s2 with recorder := s2.recorder.start now, clipStartedAt := some now },
             [.recordingStarted])
        else
          if s2.recorder.recording then (s2, [])
          else
            ({ s2 with recorder := s2.recorder.start now, clipStartedAt := some now },
             [.recordingStarted])
    else (s1, [])

/-- Model of `LocalFlowApp._on_release` (`app.py` lines 72-86) at monotonic time
`now`: discard the normalized key from the pressed set; clear the latch when
the pressed set no longer equals the combo; in toggle mode stop there; in
hold mode, when not processing, the recorder is running and the pressed set
has diverged from the combo, finish the recording. -/
def onRelease (ctx : HotkeyCtx K) (now : ℚ) (k : K) (s : AppState K) :
    AppState K × List Effect :=
  let n := ctx.normalize k
  let s1 : AppState K := { s with pressed := s.pressed.erase n }
  let s2 : AppState K :=
    if s1.pressed ≠ ctx.combo then { s1 with activated := false } else s1
  if ctx.toggleMode then (s2, [])
  else if s2.processing ∨ s2.recorder.recording = false then (s2, [])
  else if s2.pressed = ctx.combo then (s2, [])
  else finishRecordingLocked now s2

/-- A key event delivered by the OS listener. -/
inductive KEvent (K : Type) where
  | press (k : K)
  | release (k : K)

/-- Run one key event through the handlers, keeping the state. -/
def stepEvent (ctx : HotkeyCtx K) (now : ℚ) (s : AppState K) : KEvent K → AppState K
  | .press k => (onPress ctx now k s).1
  | .release k => (onRelease ctx now k s).1

/-- Run a sequence of key events through the handlers. -/
def runEvents (ctx : HotkeyCtx K) (now : ℚ) (s : AppState K)
    (evs : List (KEvent K)) : AppState K :=
  evs.foldl (stepEvent ctx now) s

/-- One key event acting on the set of normalized key identities physically
down: a press puts an identity down, a release lifts it. -/
def downStep (ctx : HotkeyCtx K) (d : Finset K) : KEvent K → Finset K
  | .press k => insert (ctx.normalize k) d
  | .release k => d.erase (ctx.normalize k)

/-- The set of normalized key identities physically down after a sequence of
events. -/
def downSet (ctx : HotkeyCtx K) (evs : List (KEvent K)) : Finset K :=
  evs.foldl (downStep ctx) ∅

/-- A press event is a combo-satisfied edge in state `s` exactly when the
guards on `app.py` lines 52-55 pass: the normalized key belongs to the combo,
adding it makes the pressed set equal the combo, and the activation latch is
clear.  This is the program point where `_hotkey_activated` is set. -/
def satisfiedEdge (ctx : HotkeyCtx K) (s : AppState K) (k : K) : Bool :=
  decide (ctx.normalize k ∈ ctx.combo ∧
          insert (ctx.normalize k) s.pressed = ctx.combo ∧
          s.activated = false)

/-- Number of combo-satisfied edges produced while feeding a list of press
events through `_on_press`. -/
def countEdges (ctx : HotkeyCtx K) (now : ℚ) : AppState K → List K → Nat
  | _, [] => 0
  | s, k :: ks =>
    (if satisfiedEdge ctx s k then 1 else 0) +
      countEdges ctx now (onPress ctx now k s).1 ks

/-- Feed a list of press events through `_on_press`. -/
def runPresses (ctx : HotkeyCtx K) (now : ℚ) (s : AppState K) (ks : List K) :
    AppState K :=
  ks.foldl (fun s k => (onPress ctx now k s).1) s

/-! ## Helper lemmas -/

/-- After `stop`, the stream handle is cleared in every branch. -/
lemma stop_snd_streamOpen (now : ℚ) (r : AudioRecorder) :
    ((r.stop now).2).streamOpen = false := by
  unfold AudioRecorder.stop
  split <;> [rfl; skip]
  split <;> rfl

/-- Model of `_on_press` acts on `_pressed_hotkey_keys` exactly by inserting the
normalized key when it belongs to the combo. -/
lemma onPress_fst_pressed (ctx : HotkeyCtx K) (now : ℚ) (k : K) (s : AppState K) :
    ((onPress ctx now k s).1).pressed =
      if ctx.normalize k ∈ ctx.combo then insert (ctx.normalize k) s.pressed
      else s.pressed := by
  unfold onPress finishRecordingLocked
  by_cases hmem : ctx.normalize k ∈ ctx.combo <;>
    simp only [hmem, not_true_eq_false, not_false_eq_true, if_false, if_true] <;>
    split_ifs <;> rfl

/-- Model of `_on_press` changes `_hotkey_activated` only on a combo-satisfied edge,
where it sets it. -/
lemma onPress_fst_activated (ctx : HotkeyCtx K) (now : ℚ) (k : K) (s : AppState K) :
    ((onPress ctx now k s).1).activated =
      (s.activated || satisfiedEdge ctx s k) := by
  unfold onPress finishRecordingLocked satisfiedEdge
  by_cases hmem : ctx.normalize k ∈ ctx.combo <;>
    by_cases hfull : insert (ctx.normalize k) s.pressed = ctx.combo <;>
    by_cases hact : s.activated <;>
    simp_all <;> split_ifs <;> rfl

/-- Model of `_on_release` always discards the normalized key from
`_pressed_hotkey_keys`. -/
lemma onRelease_fst_pressed (ctx : HotkeyCtx K) (now : ℚ) (k : K) (s : AppState K) :
    ((onRelease ctx now k s).1).pressed = s.pressed.erase (ctx.normalize k) := by
  unfold onRelease finishRecordingLocked
  dsimp only
  split_ifs <;> rfl

/-- Model of `_on_release` keeps the latch exactly when the pressed set still equals
the combo after the discard. -/
lemma onRelease_fst_activated (ctx : HotkeyCtx K) (now : ℚ) (k : K) (s : AppState K) :
    ((onRelease ctx now k s).1).activated =
      (s.activated && decide (s.pressed.erase (ctx.normalize k) = ctx.combo)) := by
  unfold onRelease finishRecordingLocked
  by_cases hfull : s.pressed.erase (ctx.normalize k) = ctx.combo <;>
    simp_all <;> split_ifs <;> rfl

/-! ## C10: the toggle hotkey can never come out of config loading -/

/-- C10: `_normalize_hotkey` never returns `"<cmd_r>+<space>"` (every
spelling of that combination is rewritten to `"<cmd>+<shift>"`), so the
hotkey produced by `load_config` never makes `LocalFlowApp.__init__` set
`_toggle_mode`: the app always operates in hold mode. -/
theorem c10_toggle_mode_unreachable (s : String) (raw : Option String) :
    normalize_hotkey s ≠ "<cmd_r>+<space>" ∧
    toggle_mode_of (load_config_hotkey raw) = false := by
  have key : ∀ t : String, normalize_hotkey t ≠ "<cmd_r>+<space>" := by
    intro t
    unfold normalize_hotkey
    dsimp only
    split_ifs with h1 h2 h3
    · decide
    · decide
    · decide
    · intro heq
      exact h2 (by rw [heq]; decide)
  refine ⟨key s, ?_⟩
  have := key ((raw.getD "<cmd_r>"))
  simp only [toggle_mode_of, load_config_hotkey]
  exact beq_eq_false_iff_ne.mpr this

/-! ## C7: voice-command rewriting -/

/-- C7: `apply_voice_commands` rewrites the literal phrases "new paragraph"
and "new line" case-insensitively, only as whole words, into paragraph and
line breaks, and normalizes whitespace around the inserted breaks; in
particular `"hello new paragraph world"` becomes `"hello\n\nworld"`. -/
theorem c7_apply_voice_commands :
    apply_voice_commands "hello new paragraph world" = "hello\n\nworld" ∧
    apply_voice_commands "Hello NEW PARAGRAPH world" = "Hello\n\nworld" ∧
    apply_voice_commands "one new line two" = "one\ntwo" ∧
    apply_voice_commands "anew paragraph" = "anew paragraph" ∧
    apply_voice_commands "press new lines now" = "press new lines now" := by
  refine ⟨?_, ?_, ?_, ?_, ?_⟩ <;> decide

/-! ## C5: `AudioRecorder.stop` duration -/

/-- C5 counterexample: for the active session opened at time 0 with no
captured frames, `stop` at time 1 returns duration `0.0` even though the
wall-clock elapsed time since `start()` is `1 ≠ 0` — the claim that every
active session's `stop` returns the wall-clock elapsed time fails. -/
theorem c5_counterexample_empty_frames :
    (AudioRecorder.stop 1 ⟨true, some 0, []⟩).1.2 = 0 ∧ (1 : ℚ) - 0 ≠ 0 := by
  refine ⟨rfl, by norm_num⟩

/-- C5 (amended): for an active session that captured at least one buffer,
`stop` returns the wall-clock elapsed time since `start()` (clamped below at
zero), and the returned duration does not depend on the captured frames at
all; with no captured frames `stop` returns zero duration. -/
theorem c5_duration_is_wall_clock (r : AudioRecorder) (now t0 : ℚ)
    (hopen : r.streamOpen = true) (hstart : r.startedAt = some t0)
    (hframes : r.frames ≠ []) :
    (r.stop now).1.2 = max 0 (now - t0) ∧
    ∀ fr : List (List ℚ), fr ≠ [] →
      (AudioRecorder.stop now { r with frames := fr }).1.2 = (r.stop now).1.2 := by
  constructor
  · unfold AudioRecorder.stop
    simp [hopen, hframes, hstart]
  · intro fr hfr
    unfold AudioRecorder.stop
    simp [hopen, hframes, hfr, hstart]

/-- C5 witness: concrete active session, one captured buffer, opened at 0 and
stopped at 1: duration is `max 0 (1 - 0)`. -/
theorem c5_witness :
    (AudioRecorder.stop 1 ⟨true, some 0, [[(1 : ℚ)]]⟩).1.2 = max 0 (1 - 0) :=
  (c5_duration_is_wall_clock ⟨true, some 0, [[(1 : ℚ)]]⟩ 1 0 rfl rfl (by decide)).1

/-! ## C6: `LocalEnhancer.enhance` failure behaviour -/

/-- C6 counterexample: a loaded model whose completion call raises makes
`enhance` propagate the exception to its caller instead of returning the
input unchanged — the claim that `enhance` never propagates an exception on
an internal failure fails. -/
theorem c6_counterexample_completion_error :
    LocalEnhancer.enhance
        ⟨true, some ⟨fun _ => Except.error PyErr.runtimeError⟩, none⟩ "hi"
      = Except.error PyErr.runtimeError ∧
    (Except.error PyErr.runtimeError : Except PyErr String) ≠ Except.ok "hi" := by
  exact ⟨rfl, fun h => Except.noConfusion h⟩

/-- C6 (amended): `enhance` returns the input unchanged whenever the model
failed to load (any `_load` failure leaves `_model = None`) or the loaded
model generates only blank text; but an exception raised by the loaded
model's completion call propagates to the caller. -/
theorem c6_enhance_failure_behaviour (e : LocalEnhancer) (text : String) :
    (e.model = none → e.enhance text = Except.ok text) ∧
    (∀ m : PyModel, e.model = some m → pyStrip text ≠ "" →
      (∀ err, m.createCompletion (enhancerPrompt text) = Except.error err →
        e.enhance text = Except.error err) ∧
      (∀ raw, m.createCompletion (enhancerPrompt text) = Except.ok raw →
        pyStrip raw = "" → e.enhance text = Except.ok text)) := by
  constructor
  · intro h
    unfold LocalEnhancer.enhance
    rw [h]
  · intro m hm hne
    constructor
    · intro err herr
      unfold LocalEnhancer.enhance
      rw [hm]
      simp [hne, herr]
    · intro raw hraw hblank
      unfold LocalEnhancer.enhance
      rw [hm]
      simp [hne, hraw, hblank]

/-- C6 witness: an enhancer whose llama model failed to load returns the
input unchanged. -/
theorem c6_witness :
    LocalEnhancer.enhance ⟨true, none, some "model file not found"⟩ "hi"
      = Except.ok "hi" :=
  (c6_enhance_failure_behaviour ⟨true, none, some "model file not found"⟩ "hi").1 rfl

/-! ## C1: history record and text emission for non-empty text -/

/-- C1: evaluation of the worker at the Hold-mode scenario (stub transcriber
returns "hello", voice commands and enhancer disabled).  The history call at
`app.py` line 127 passes keyword `mode`, which `history.append_history` does
not accept, so `TypeError` is raised and caught at the worker boundary: no
history record is persisted and `emit_text` is never invoked — the emitted
text is not `"hello"`, contradicting the claim (and `spec §4.4(4)`). -/
theorem c1_scenario_nothing_emitted :
    process_audio ⟨some "en", false, false⟩
        ⟨fun _ _ => Except.ok "hello", fun _ => Except.ok ()⟩
        ⟨false, none, none⟩ [0] =
      ⟨none, false, some PyErr.typeError, false, false⟩ := by
  rfl

/-! ## C2: sub-threshold clips are never submitted -/

/-- C2: when a recording is finished (`_finish_recording_locked`, called with
`_processing` clear), a clip whose duration is below 0.2s or whose sample
count is zero is dropped — nothing is submitted to the single-slot executor
and the state is directly `Idle`; otherwise the clip is submitted and the
state becomes `Processing`. -/
theorem c2_short_clip_never_submitted (now : ℚ) (s : AppState K)
    (hproc : s.processing = false) :
    ((s.recorder.stop now).1.2 < 1/5 ∨ (s.recorder.stop now).1.1.length = 0 →
      (finishRecordingLocked now s).2 = [Effect.tooShort] ∧
      ((finishRecordingLocked now s).2.any Effect.isSubmit) = false ∧
      recordingStateOf (finishRecordingLocked now s).1 = RecordingState.idle) ∧
    (¬((s.recorder.stop now).1.2 < 1/5 ∨ (s.recorder.stop now).1.1.length = 0) →
      (finishRecordingLocked now s).2 =
        [Effect.submitted (s.recorder.stop now).1.1 s.clipStartedAt] ∧
      recordingStateOf (finishRecordingLocked now s).1 = RecordingState.processing) := by
  have hso := stop_snd_streamOpen now s.recorder
  unfold finishRecordingLocked
  dsimp only
  constructor
  · intro hshort
    rw [if_pos hshort]
    refine ⟨rfl, rfl, ?_⟩
    simp [recordingStateOf, AudioRecorder.recording, hproc, hso]
  · intro hlong
    rw [if_neg hlong]
    exact ⟨rfl, by simp [recordingStateOf]⟩

/-- C2 witness: a session opened at time 0 with one captured buffer, stopped
at time 1/10 (duration 1/10 < 1/5), is dropped with no submission and the
state is `Idle`; stopped at time 1 instead (duration 1), it is submitted and
the state is `Processing`. -/
theorem c2_witness :
    (finishRecordingLocked (1/10)
        (⟨∅, false, false, ⟨true, some 0, [[(1 : ℚ)]]⟩, some 0⟩ : AppState ℕ)).2 =
      [Effect.tooShort] ∧
    recordingStateOf (finishRecordingLocked (1/10)
        (⟨∅, false, false, ⟨true, some 0, [[(1 : ℚ)]]⟩, some 0⟩ : AppState ℕ)).1 =
      RecordingState.idle ∧
    (finishRecordingLocked 1
        (⟨∅, false, false, ⟨true, some 0, [[(1 : ℚ)]]⟩, some 0⟩ : AppState ℕ)).2 =
      [Effect.submitted [(1 : ℚ)] (some 0)] := by
  have h1 := c2_short_clip_never_submitted (K := ℕ) (1/10)
    ⟨∅, false, false, ⟨true, some 0, [[(1 : ℚ)]]⟩, some 0⟩ rfl
  have h2 := c2_short_clip_never_submitted (K := ℕ) 1
    ⟨∅, false, false, ⟨true, some 0, [[(1 : ℚ)]]⟩, some 0⟩ rfl
  have hshort : ((AudioRecorder.stop (1/10) ⟨true, some 0, [[(1 : ℚ)]]⟩).1.2 < 1/5 ∨
      (AudioRecorder.stop (1/10) ⟨true, some 0, [[(1 : ℚ)]]⟩).1.1.length = 0) := by
    left
    norm_num [AudioRecorder.stop]
  have hlong : ¬((AudioRecorder.stop 1 ⟨true, some 0, [[(1 : ℚ)]]⟩).1.2 < 1/5 ∨
      (AudioRecorder.stop 1 ⟨true, some 0, [[(1 : ℚ)]]⟩).1.1.length = 0) := by
    norm_num [AudioRecorder.stop]
  obtain ⟨e1, _, st1⟩ := h1.1 hshort
  obtain ⟨e2, _⟩ := h2.2 hlong
  exact ⟨e1, st1, e2⟩

/-! ## C3: combo edge while processing -/

/-- C3: a combo-satisfied edge arriving while the state is `Processing`
leaves the recorder untouched (the audio session is never started), leaves
the recording state at `Processing`, and emits exactly the busy advisory. -/
theorem c3_busy_edge_while_processing (ctx : HotkeyCtx K) (now : ℚ) (k : K)
    (s : AppState K)
    (hproc : s.processing = true)
    (hmem : ctx.normalize k ∈ ctx.combo)
    (hfull : insert (ctx.normalize k) s.pressed = ctx.combo)
    (hlatch : s.activated = false) :
    ((onPress ctx now k s).1).recorder = s.recorder ∧
    recordingStateOf (onPress ctx now k s).1 = RecordingState.processing ∧
    recordingStateOf s = RecordingState.processing ∧
    (onPress ctx now k s).2 = [Effect.busyAdvisory] := by
  unfold onPress
  dsimp only
  rw [if_neg (not_not_intro hmem), if_pos hfull, if_neg (by simp [hlatch]),
    if_pos hproc]
  exact ⟨rfl, by simp [recordingStateOf, hproc], by simp [recordingStateOf, hproc], rfl⟩

/-- C3 witness: combo `{0}`, identity normalization, hold mode; pressing key
0 while processing leaves the recorder closed, keeps the state `Processing`
and emits the busy advisory. -/
theorem c3_witness :
    ((onPress (⟨{0}, id, false⟩ : HotkeyCtx ℕ) 0 0
        ⟨∅, false, true, ⟨false, none, []⟩, none⟩).1).recorder =
      (⟨false, none, []⟩ : AudioRecorder) ∧
    (onPress (⟨{0}, id, false⟩ : HotkeyCtx ℕ) 0 0
        ⟨∅, false, true, ⟨false, none, []⟩, none⟩).2 = [Effect.busyAdvisory] := by
  have h := c3_busy_edge_while_processing (⟨{0}, id, false⟩ : HotkeyCtx ℕ) 0 0
    ⟨∅, false, true, ⟨false, none, []⟩, none⟩ rfl (by decide) (by decide) rfl
  exact ⟨h.1, h.2.2.2⟩

/-! ## C4: collaborator exceptions are caught at the worker boundary -/

/-- C4: whatever the collaborators do, `_process_audio` always runs its
completion step (`_processing` is cleared by the `finally` block), and an
exception raised by the transcriber, by the enhancer, or by the history call
is caught and recorded as a non-fatal error with nothing emitted. -/
theorem c4_worker_exceptions_caught (cfg : FlowConfig) (collab : Collaborators)
    (enh : LocalEnhancer) (audio : List ℚ) :
    (process_audio cfg collab enh audio).processingAfter = false ∧
    (∀ e, collab.transcribe audio cfg.language = Except.error e →
      process_audio cfg collab enh audio = ⟨none, false, some e, false, false⟩) ∧
    (∀ raw e, collab.transcribe audio cfg.language = Except.ok raw →
      cfg.enableEnhancer = true →
      enh.enhance (if cfg.enableVoiceCommands then apply_voice_commands raw else raw)
        = Except.error e →
      process_audio cfg collab enh audio = ⟨none, false, some e, false, false⟩) ∧
    (∀ raw text, collab.transcribe audio cfg.language = Except.ok raw →
      (if cfg.enableEnhancer then
          enh.enhance (if cfg.enableVoiceCommands then apply_voice_commands raw else raw)
        else Except.ok (if cfg.enableVoiceCommands then apply_voice_commands raw else raw))
        = Except.ok text →
      text ≠ "" →
      process_audio cfg collab enh audio
        = ⟨none, false, some PyErr.typeError, false, false⟩) := by
  refine ⟨?_, ?_, ?_, ?_⟩
  · unfold process_audio
    dsimp only
    repeat' split
    all_goals rfl
  · intro e he
    unfold process_audio
    rw [he]
  · intro raw e htr henh herr
    unfold process_audio
    rw [htr]
    dsimp only
    rw [if_pos henh, herr]
  · intro raw text htr hok hne
    unfold process_audio
    rw [htr]
    dsimp only
    rw [hok]
    dsimp only
    rw [if_neg hne]
    rfl

/-- C4 witness: with a transcriber that raises, the worker returns a caught
error, emits nothing, and clears `_processing`. -/
theorem c4_witness :
    process_audio ⟨none, false, false⟩
        ⟨fun _ _ => Except.error PyErr.runtimeError, fun _ => Except.ok ()⟩
        ⟨false, none, none⟩ [] =
      ⟨none, false, some PyErr.runtimeError, false, false⟩ ∧
    (process_audio ⟨none, false, false⟩
        ⟨fun _ _ => Except.error PyErr.runtimeError, fun _ => Except.ok ()⟩
        ⟨false, none, none⟩ []).processingAfter = false := by
  have h := c4_worker_exceptions_caught ⟨none, false, false⟩
    ⟨fun _ _ => Except.error PyErr.runtimeError, fun _ => Except.ok ()⟩
    ⟨false, none, none⟩ []
  exact ⟨h.2.1 PyErr.runtimeError rfl, h.1⟩

/-! ## C9: the pressed set tracks exactly the combo keys physically down -/

/-- Generalized invariant for C9: running any event sequence preserves
`pressed = down ∩ combo`. -/
lemma runEvents_pressed_inter (ctx : HotkeyCtx K) (now : ℚ) :
    ∀ (evs : List (KEvent K)) (s : AppState K) (d : Finset K),
      s.pressed = d ∩ ctx.combo →
      (runEvents ctx now s evs).pressed = (evs.foldl (downStep ctx) d) ∩ ctx.combo := by
  intro evs
  induction evs with
  | nil => intro s d h; simpa [runEvents] using h
  | cons e rest ih =>
    intro s d h
    have hstep : (stepEvent ctx now s e).pressed = (downStep ctx d e) ∩ ctx.combo := by
      cases e with
      | press k =>
        rw [stepEvent, onPress_fst_pressed, downStep]
        by_cases hmem : ctx.normalize k ∈ ctx.combo
        · rw [if_pos hmem, h, Finset.insert_inter_of_mem hmem]
        · rw [if_neg hmem, h, Finset.insert_inter_of_not_mem hmem]
      | release k =>
        rw [stepEvent, onRelease_fst_pressed, downStep, h, Finset.erase_inter]
    have := ih (stepEvent ctx now s e) (downStep ctx d e) hstep
    simpa [runEvents, List.foldl_cons] using this

/-- C9: after any press/release sequence from startup, `_pressed_hotkey_keys`
equals exactly the set of normalized key identities physically down
intersected with the combo: presses add only combo keys, and every release
removes its identity regardless of recording/processing state, so no entry
leaks. -/
theorem c9_pressed_set_invariant (ctx : HotkeyCtx K) (now : ℚ)
    (evs : List (KEvent K)) :
    (runEvents ctx now (initState K) evs).pressed = downSet ctx evs ∩ ctx.combo := by
  have := runEvents_pressed_inter ctx now evs (initState K) ∅ (by simp [initState])
  simpa [downSet] using this

/-! ## C8: exactly one combo-satisfied transition per held excursion -/

/-- Generalized invariant for C8 over press-only runs: the pressed set grows
by the normalized keys, the latch always equals "pressed set equals combo",
and the number of combo-satisfied edges is 0 when the combo was already held
and otherwise 1 exactly when the run reaches the full combo. -/
lemma runPresses_edges (ctx : HotkeyCtx K) (now : ℚ) :
    ∀ (ks : List K) (s : AppState K),
      (∀ k ∈ ks, ctx.normalize k ∈ ctx.combo) →
      s.pressed ⊆ ctx.combo →
      s.activated = decide (s.pressed = ctx.combo) →
      (runPresses ctx now s ks).pressed = s.pressed ∪ (ks.map ctx.normalize).toFinset ∧
      (runPresses ctx now s ks).activated
        = decide ((runPresses ctx now s ks).pressed = ctx.combo) ∧
      countEdges ctx now s ks =
        (if s.pressed = ctx.combo then 0
         else if s.pressed ∪ (ks.map ctx.normalize).toFinset = ctx.combo then 1
         else 0) := by
  intro ks
  induction ks with
  | nil =>
    intro s _ _ hact
    refine ⟨by simp [runPresses], by simpa [runPresses] using hact, ?_⟩
    by_cases h : s.pressed = ctx.combo <;> simp [countEdges, h]
  | cons k ks ih =>
    intro s hks hsub hact
    have hn : ctx.normalize k ∈ ctx.combo := hks k (List.mem_cons_self k ks)
    have hks' : ∀ k' ∈ ks, ctx.normalize k' ∈ ctx.combo :=
      fun k' hk' => hks k' (List.mem_cons_of_mem k hk')
    set s' := (onPress ctx now k s).1 with hs'
    have hps' : s'.pressed = insert (ctx.normalize k) s.pressed := by
      rw [hs', onPress_fst_pressed, if_pos hn]
    have hsub' : s'.pressed ⊆ ctx.combo := by
      rw [hps']
      exact Finset.insert_subset hn hsub
    have hact' : s'.activated = decide (s'.pressed = ctx.combo) := by
      rw [hs', onPress_fst_activated, satisfiedEdge, hact, hps']
      by_cases hsp : s.pressed = ctx.combo
      · have : insert (ctx.normalize k) s.pressed = ctx.combo := by
          rw [hsp]; exact Finset.insert_eq_self.mpr hn
        simp [hsp, this, hn]
      · by_cases hins : insert (ctx.normalize k) s.pressed = ctx.combo <;>
          simp [hsp, hins, hn]
    obtain ⟨ihp, iha, ihc⟩ := ih s' hks' hsub' hact'
    have hrun : runPresses ctx now s (k :: ks) = runPresses ctx now s' ks := by
      rw [runPresses, List.foldl_cons]; rfl
    have htf : ((k :: ks).map ctx.normalize).toFinset
        = insert (ctx.normalize k) (ks.map ctx.normalize).toFinset := by
      simp
    refine ⟨?_, ?_, ?_⟩
    · rw [hrun, ihp, hps', htf, Finset.insert_union, Finset.union_insert]
    · rw [hrun]; exact iha
    · rw [countEdges, ihc, hps', htf]
      by_cases hsp : s.pressed = ctx.combo
      · have hins : insert (ctx.normalize k) s.pressed = ctx.combo := by
          rw [hsp]; exact Finset.insert_eq_self.mpr hn
        have hedge : satisfiedEdge ctx s k = false := by
          rw [satisfiedEdge, hact, hsp]
          simp
        simp [hedge, hins, hsp, hn]
      · have hact0 : s.activated = false := by rw [hact]; simp [hsp]
        by_cases hins : insert (ctx.normalize k) s.pressed = ctx.combo
        · have hedge : satisfiedEdge ctx s k = true := by
            rw [satisfiedEdge]
            simp [hn, hins, hact0]
          have hunion : s.pressed ∪ insert (ctx.normalize k) (ks.map ctx.normalize).toFinset
              = ctx.combo := by
            apply Finset.Subset.antisymm
            · apply Finset.union_subset hsub
              apply Finset.insert_subset hn
              intro x hx
              rw [List.mem_toFinset, List.mem_map] at hx
              obtain ⟨k', hk', rfl⟩ := hx
              exact hks' k' hk'
            · intro x hx
              rw [← hins] at hx
              rcases Finset.mem_insert.mp hx with h | h
              · exact Finset.mem_union_right _ (h ▸ Finset.mem_insert_self _ _)
              · exact Finset.mem_union_left _ h
          simp [hedge, hins, hsp, hunion]
        · have hedge : satisfiedEdge ctx s k = false := by
            rw [satisfiedEdge]
            simp [hins]
          have hcomm : insert (ctx.normalize k) s.pressed ∪ (ks.map ctx.normalize).toFinset
              = s.pressed ∪ insert (ctx.normalize k) (ks.map ctx.normalize).toFinset := by
            rw [Finset.insert_union, Finset.union_insert]
          simp [hedge, hins, hsp, hcomm]

/-- C8: holding all combo keys down continuously — pressing each combo key
and then receiving any number of autorepeated press re-deliveries — produces
exactly one combo-satisfied transition, and the latch is set at the end;
moreover the latch survives a release only when the pressed set still equals
the full combo afterwards (it is reset exactly when the pressed set diverges)
and is never reset by a press. -/
theorem c8_autorepeat_single_transition (ctx : HotkeyCtx K) (now : ℚ)
    (ks : List K)
    (hne : ctx.combo.Nonempty)
    (hmem : ∀ k ∈ ks, ctx.normalize k ∈ ctx.combo)
    (hcover : ∀ c ∈ ctx.combo, ∃ k ∈ ks, ctx.normalize k = c) :
    countEdges ctx now (initState K) ks = 1 ∧
    (runPresses ctx now (initState K) ks).activated = true ∧
    (∀ (s : AppState K) (k : K),
      ((onRelease ctx now k s).1).activated = true →
        s.activated = true ∧ ((onRelease ctx now k s).1).pressed = ctx.combo) ∧
    (∀ (s : AppState K) (k : K), s.activated = true →
      ((onPress ctx now k s).1).activated = true) := by
  have hnonempty : (∅ : Finset K) ≠ ctx.combo := fun h =>
    (Finset.nonempty_iff_ne_empty.mp hne) h.symm
  have hinit : (initState K).activated = decide ((initState K).pressed = ctx.combo) := by
    simp [initState, hnonempty]
  obtain ⟨hp, ha, hc⟩ := runPresses_edges ctx now ks (initState K) hmem
    (by simp [initState]) hinit
  have hfull : (ks.map ctx.normalize).toFinset = ctx.combo := by
    apply Finset.Subset.antisymm
    · intro x hx
      rw [List.mem_toFinset, List.mem_map] at hx
      obtain ⟨k', hk', rfl⟩ := hx
      exact hmem k' hk'
    · intro c hc'
      obtain ⟨k', hk', hkc⟩ := hcover c hc'
      rw [List.mem_toFinset, List.mem_map]
      exact ⟨k', hk', hkc⟩
  have hinitp : (initState K).pressed = (∅ : Finset K) := rfl
  refine ⟨?_, ?_, ?_, ?_⟩
  · rw [hc, hinitp, if_neg hnonempty, Finset.empty_union, hfull, if_pos rfl]
  · rw [ha, hp, hinitp, Finset.empty_union, hfull]
    simp
  · intro s k h
    rw [onRelease_fst_activated] at h
    rw [onRelease_fst_pressed]
    simp only [Bool.and_eq_true, decide_eq_true_eq] at h
    exact h
  · intro s k h
    rw [onPress_fst_activated, h, Bool.true_or]

/-- C8 witness: combo `{0}` under identity normalization; the press sequence
`[0, 0, 0]` (one press plus two autorepeat re-deliveries) produces exactly
one combo-satisfied transition and leaves the latch set. -/
theorem c8_witness :
    countEdges (⟨{0}, id, false⟩ : HotkeyCtx ℕ) 0 (initState ℕ) [0, 0, 0] = 1 ∧
    (runPresses (⟨{0}, id, false⟩ : HotkeyCtx ℕ) 0 (initState ℕ) [0, 0, 0]).activated
      = true := by
  have h := c8_autorepeat_single_transition (⟨{0}, id, false⟩ : HotkeyCtx ℕ) 0
    [0, 0, 0] ⟨0, by decide⟩ (by decide) (by decide)
  exact ⟨h.1, h.2.1⟩

end LocalFlow
